import Mathlib

/-!
Verification development for the LCS (Lagrangian Coherent Structures) library.

The C++ sources (namespace `LCS`, files `basic.hpp`, `field.hpp`, `flow.hpp`,
`ftle.hpp`) are shallowly embedded here.  The numeric template parameter `T`
is modelled by `ℚ`, grids (`Tensor<T,2>`) by a flat list indexed in row-major
order exactly as `data_[i*ny_ + j]`, and the 2-component `Vector<T,2>` by a
structure `Vec2`.  Stateful member functions become pure functions from the
relevant record to a new record.
-/

namespace LCS

/-- Model of `Vector<T,2>` from basic.hpp: a 2-component vector with
default-initialized (zero) components. -/
structure Vec2 where
  x : ℚ
  y : ℚ
deriving DecidableEq, Repr

instance : Inhabited Vec2 := ⟨⟨0, 0⟩⟩

/-- Model of `Tensor<T,2>` from basic.hpp: an `nx × ny` grid stored in a flat
row-major vector `data_` of length `nx*ny`, element `(i,j)` at `data_[i*ny+j]`. -/
structure Tensor (α : Type) where
  nx : ℕ
  ny : ℕ
  data : List α
deriving DecidableEq, Repr

/-- Model of `Tensor::Get(i,j)` / `operator()(i,j)`: read `data_[i*ny_+j]`. -/
def Tensor.Get {α : Type} [Inhabited α] (t : Tensor α) (i j : ℕ) : α :=
  t.data.getD (i * t.ny + j) default

/-- Model of `Tensor::GetValue(i,j)` (identical read of `data_[i*ny_+j]`). -/
def Tensor.GetValue {α : Type} [Inhabited α] (t : Tensor α) (i j : ℕ) : α :=
  t.data.getD (i * t.ny + j) default

/-- Model of `Tensor::SetValue(i,j,value)`: write `data_[i*ny_+j] = value`. -/
def Tensor.SetValue {α : Type} (t : Tensor α) (i j : ℕ) (v : α) : Tensor α :=
  { t with data := t.data.set (i * t.ny + j) v }

/-- Model of `Tensor::GetNearby(i,j)` from basic.hpp lines 266-276: the four
axis neighbours `(x_pre, x_next, y_pre, y_next)`, each replaced by the cell
itself at the corresponding grid boundary. -/
def Tensor.GetNearby {α : Type} [Inhabited α] (t : Tensor α) (i j : ℕ) :
    α × α × α × α :=
  let xPre := if i ≠ 0 then t.Get (i-1) j else t.Get i j
  let xNext := if i ≠ t.nx - 1 then t.Get (i+1) j else t.Get i j
  let yPre := if j ≠ 0 then t.Get i (j-1) else t.Get i j
  let yNext := if j ≠ t.ny - 1 then t.Get i (j+1) else t.Get i j
  (xPre, xNext, yPre, yNext)

/-- Index-aware map over the flat data evaluates pointwise (helper lemma for
reasoning about the per-cell loops, which the embedding renders as `mapIdx`). -/
theorem getD_mapIdx {α β : Type} (l : List α) (f : ℕ → α → β) (n : ℕ) (d : β)
    (hn : n < l.length) :
    (l.mapIdx f).getD n d = f n (l.get ⟨n, hn⟩) := by
  induction l generalizing f n with
  | nil => simp at hn
  | cons a l ih =>
    rw [List.mapIdx_cons]
    cases n with
    | zero => rfl
    | succ m =>
      simp only [List.getD_cons_succ, List.get_cons_succ]
      exact ih _ m (by simpa using hn)

/-- Row-major flat index of an in-range cell is in range. -/
theorem flatIdx_lt {i j nx ny : ℕ} (hi : i < nx) (hj : j < ny) :
    i * ny + j < nx * ny :=
  calc i * ny + j < i * ny + ny := by omega
  _ = (i + 1) * ny := by ring
  _ ≤ nx * ny := Nat.mul_le_mul_right ny hi

/-- Row-major index decomposition: the `i` component. -/
theorem flatIdx_div {i j ny : ℕ} (hj : j < ny) : (i * ny + j) / ny = i := by
  rw [Nat.mul_comm, Nat.mul_add_div (by omega)]
  simp [Nat.div_eq_of_lt hj]

/-- Row-major index decomposition: the `j` component. -/
theorem flatIdx_mod {i j ny : ℕ} (hj : j < ny) : (i * ny + j) % ny = j := by
  rw [Nat.mul_comm, Nat.mul_add_mod]
  exact Nat.mod_eq_of_lt hj

/-- Model of the scalar `interpolate(x1, x2, y1, y2, xm)` from basic.hpp
lines 320-324: `y1 + (xm - x1) * (y2 - y1) / (x2 - x1)`. -/
def interpolate (x1 x2 y1 y2 xm : ℚ) : ℚ :=
  y1 + (xm - x1) * (y2 - y1) / (x2 - x1)

/-- Model of `operator+` on `std::vector<Vector<T,2>>` (elementwise, using the
`Vector` addition of basic.hpp). -/
def vecAdd (a b : List Vec2) : List Vec2 :=
  List.zipWith (fun u v => ⟨u.x + v.x, u.y + v.y⟩) a b

/-- Model of `operator-` on `std::vector<Vector<T,2>>` (elementwise). -/
def vecSub (a b : List Vec2) : List Vec2 :=
  List.zipWith (fun u v => ⟨u.x - v.x, u.y - v.y⟩) a b

/-- Model of `operator*(c, std::vector<Vector<T,2>>)` (scalar times each
component). -/
def scalMul (c : ℚ) (a : List Vec2) : List Vec2 :=
  a.map fun u => ⟨c * u.x, c * u.y⟩

/-- Model of the `Field` overload `interpolate(x1, x2, f1, f2, xm, result)`
from basic.hpp lines 335-348, at the level of the raw flat data of the fields:
the result starts as a copy of `f1`'s data and, when `x1 != x2`, is replaced by
`vec1 + ((xm - x1)/(x2 - x1)) * (vec2 - vec1)`. -/
def interpolateField (x1 x2 : ℚ) (f1 f2 : List Vec2) (xm : ℚ) : List Vec2 :=
  if x1 ≠ x2 then
    vecAdd f1 (scalMul ((xm - x1) / (x2 - x1)) (vecSub f2 f1))
  else
    f1

/-- C6: if `x1 == x2` the temporal interpolation returns the first snapshot's
data unmodified; otherwise every raw component of the result equals
`v1 + ((xm - x1)/(x2 - x1)) * (v2 - v1)` for the corresponding raw components
`v1`, `v2` of the two snapshots. -/
theorem interpolateField_spec (x1 x2 xm : ℚ) (f1 f2 : List Vec2)
    (hlen : f1.length = f2.length) :
    (x1 = x2 → interpolateField x1 x2 f1 f2 xm = f1)
    ∧ (x1 ≠ x2 → ∀ n, n < f1.length →
        (interpolateField x1 x2 f1 f2 xm).getD n default =
          ⟨(f1.getD n default).x + ((xm - x1)/(x2 - x1)) *
              ((f2.getD n default).x - (f1.getD n default).x),
           (f1.getD n default).y + ((xm - x1)/(x2 - x1)) *
              ((f2.getD n default).y - (f1.getD n default).y)⟩) := by
  constructor
  · intro h
    simp [interpolateField, h]
  · intro h n hn
    have hn2 : n < f2.length := hlen ▸ hn
    have hz : n < (scalMul ((xm - x1)/(x2 - x1)) (vecSub f2 f1)).length := by
      simp [scalMul, vecSub]
      omega
    simp only [interpolateField, if_pos h, vecAdd]
    rw [List.getD_eq_getElem?_getD, List.getElem?_zipWith]
    rw [List.getElem?_eq_getElem hn, List.getElem?_eq_getElem hz]
    simp only [Option.map_some, Option.some.injEq, Option.getD_some]
    have hmap : (scalMul ((xm - x1)/(x2 - x1)) (vecSub f2 f1))[n] =
        ⟨((xm - x1)/(x2 - x1)) * ((f2.getD n default).x - (f1.getD n default).x),
         ((xm - x1)/(x2 - x1)) * ((f2.getD n default).y - (f1.getD n default).y)⟩ := by
      simp only [scalMul, vecSub, List.getElem_map, List.getElem_zipWith]
      rw [List.getD_eq_getElem _ _ hn, List.getD_eq_getElem _ _ hn2]
    rw [hmap, List.getD_eq_getElem _ _ hn]

/-- C6 witness: concrete evaluation of the two branches. -/
theorem interpolateField_spec_witness :
    ((3:ℚ) = 3 → interpolateField 3 3 [⟨1,2⟩] [⟨5,6⟩] 3 = [⟨1,2⟩])
    ∧ ((1:ℚ) ≠ 3 → ∀ n, n < ([⟨1,2⟩] : List Vec2).length →
        (interpolateField 1 3 [⟨1,2⟩] [⟨5,6⟩] 2).getD n default =
          ⟨(([⟨1,2⟩] : List Vec2).getD n default).x + ((2 - 1)/(3 - 1)) *
              ((([⟨5,6⟩] : List Vec2).getD n default).x - (([⟨1,2⟩] : List Vec2).getD n default).x),
           (([⟨1,2⟩] : List Vec2).getD n default).y + ((2 - 1)/(3 - 1)) *
              ((([⟨5,6⟩] : List Vec2).getD n default).y - (([⟨1,2⟩] : List Vec2).getD n default).y)⟩) :=
  ⟨(interpolateField_spec 3 3 3 [⟨1,2⟩] [⟨5,6⟩] rfl).1,
   (interpolateField_spec 1 3 2 [⟨1,2⟩] [⟨5,6⟩] rfl).2⟩

/-- C7: for distinct snapshot times, temporal interpolation evaluated at either
endpoint reproduces the corresponding snapshot exactly. -/
theorem interpolateField_endpoints (x1 x2 : ℚ) (f1 f2 : List Vec2)
    (hne : x1 ≠ x2) (hlen : f1.length = f2.length) :
    interpolateField x1 x2 f1 f2 x1 = f1
    ∧ interpolateField x1 x2 f1 f2 x2 = f2 := by
  have hd : x2 - x1 ≠ 0 := sub_ne_zero.mpr (Ne.symm hne)
  constructor
  · apply List.ext_getElem
    · simp [interpolateField, if_pos hne, vecAdd, scalMul, vecSub]
      omega
    · intro n h1 h2
      simp only [interpolateField, if_pos hne, vecAdd, scalMul, vecSub,
        List.getElem_zipWith, List.getElem_map]
      simp [Vec2.mk.injEq]
  · apply List.ext_getElem
    · simp [interpolateField, if_pos hne, vecAdd, scalMul, vecSub]
      omega
    · intro n h1 h2
      have hn1 : n < f1.length := by
        simp [interpolateField, if_pos hne, vecAdd, scalMul, vecSub] at h1
        omega
      have hn2 : n < f2.length := hlen ▸ hn1
      simp only [interpolateField, if_pos hne, vecAdd, scalMul, vecSub,
        List.getElem_zipWith, List.getElem_map]
      have hfac : (x2 - x1) / (x2 - x1) = 1 := div_self hd
      have hx : f1[n].x + (x2 - x1) / (x2 - x1) * (f2[n].x - f1[n].x) = f2[n].x := by
        rw [hfac]; ring
      have hy : f1[n].y + (x2 - x1) / (x2 - x1) * (f2[n].y - f1[n].y) = f2[n].y := by
        rw [hfac]; ring
      rw [hx, hy]

/-- C7 witness: concrete endpoint evaluation. -/
theorem interpolateField_endpoints_witness :
    interpolateField 1 3 [(⟨1,2⟩ : Vec2)] [⟨5,6⟩] 1 = [⟨1,2⟩]
    ∧ interpolateField 1 3 [(⟨1,2⟩ : Vec2)] [⟨5,6⟩] 3 = [⟨5,6⟩] :=
  interpolateField_endpoints 1 3 [⟨1,2⟩] [⟨5,6⟩] (by norm_num) rfl

/-- Model of `enum Direction` from flow.hpp: particle advection direction. -/
inductive Direction
  | Forward
  | Backward
deriving DecidableEq, Repr

/-- Model of the `Position<T,2>` class state from field.hpp: the coordinate
grid `data_`, the lazily created out-of-bound bitmap `out_of_bound_` (a null
pointer is `none`), the defining axis ranges, and the bounding box set by
`SetBound`.  The `Field` base-class members `nx_`, `ny_` coincide with the
tensor's `nx`, `ny` by construction and are represented by those. -/
structure Position where
  data : Tensor Vec2
  out_of_bound : Option (Tensor Bool)
  pos_xrange : List ℚ
  pos_yrange : List ℚ
  bound_xmin : ℚ
  bound_xmax : ℚ
  bound_ymin : ℚ
  bound_ymax : ℚ
deriving Repr

/-- The out-of-box test of `Position::Update` (field.hpp lines 258-261):
the new coordinates violate the stored bounding box. -/
def Position.outOfBox (p : Position) (c : Vec2) : Bool :=
  decide (c.x < p.bound_xmin) || decide (c.x > p.bound_xmax) ||
    decide (c.y < p.bound_ymin) || decide (c.y > p.bound_ymax)

/-- Model of `Position::Update(vel, delta)` from field.hpp lines 243-265: for
every grid point `(i,j)`, read the velocity once, add `velocity * delta` to
both position components, and, when the out-of-bound tensor exists, set the
cell's flag to true if the new coordinates violate the bounding box (leaving
the flag untouched otherwise).  The per-cell loop body is rendered as a
`mapIdx` over the row-major data. -/
def Position.Update (p : Position) (vel : Tensor Vec2) (delta : ℚ) : Position :=
  let newPos : ℕ → ℕ → Vec2 := fun i j =>
    ⟨(p.data.Get i j).x + (vel.Get i j).x * delta,
     (p.data.Get i j).y + (vel.Get i j).y * delta⟩
  let newData : Tensor Vec2 :=
    { p.data with
      data := p.data.data.mapIdx fun n _ => newPos (n / p.data.ny) (n % p.data.ny) }
  let newOob : Option (Tensor Bool) :=
    match p.out_of_bound with
    | none => none
    | some t =>
        some { t with
          data := t.data.mapIdx fun n b =>
            if p.outOfBox (newPos (n / t.ny) (n % t.ny)) then true else b }
  { p with data := newData, out_of_bound := newOob }

/-- Model of `Position::InitializeOutOfBoundTensor` (field.hpp lines 269-273):
allocate the bitmap with every cell default-initialized to `false`. -/
def Position.InitializeOutOfBoundTensor (p : Position) : Position :=
  { p with
    out_of_bound := some (Tensor.mk p.data.nx p.data.ny
      (List.replicate (p.data.nx * p.data.ny) false)) }

/-- Model of `Position::IsOutOfBound(i,j)` (field.hpp lines 280-286): read the
bitmap when it exists, otherwise return `false`. -/
def Position.IsOutOfBound (p : Position) (i j : ℕ) : Bool :=
  match p.out_of_bound with
  | some t => t.GetValue i j
  | none => false

/-- Model of `Position::SetBound` (field.hpp lines 294-300). -/
def Position.SetBound (p : Position) (xmin xmax ymin ymax : ℚ) : Position :=
  { p with bound_xmin := xmin, bound_xmax := xmax,
           bound_ymin := ymin, bound_ymax := ymax }

/-- Model of the per-step position update of `FlowField::Run` (flow.hpp lines
184-189): `Forward` calls `Update(vel, delta)`, `Backward` calls
`Update(vel, -delta)`. -/
def runAdvect (dir : Direction) (p : Position) (vel : Tensor Vec2) (delta : ℚ) :
    Position :=
  match dir with
  | .Forward => p.Update vel delta
  | .Backward => p.Update vel (-delta)

/-- The signed time step threaded through a run. -/
def signedDelta (dir : Direction) (delta : ℚ) : ℚ :=
  match dir with
  | .Forward => delta
  | .Backward => -delta

/-- C1: for every in-range grid point, both `Run` branches reduce to the same
`Update` call at the signed delta; the update adds `velocity(point) * delta` to
each position component (explicit Euler, velocity read once per point); and
when the out-of-bound bitmap exists the cell's flag after the update is true
exactly if it was already true or the new coordinates violate the bounding box
stored by `SetBound`. -/
theorem Position_Update_spec (p : Position) (vel : Tensor Vec2) (dir : Direction)
    (delta xmin xmax ymin ymax : ℚ) (i j : ℕ)
    (hwf : p.data.data.length = p.data.nx * p.data.ny)
    (hi : i < p.data.nx) (hj : j < p.data.ny) :
    runAdvect dir (p.SetBound xmin xmax ymin ymax) vel delta =
      (p.SetBound xmin xmax ymin ymax).Update vel (signedDelta dir delta)
    ∧ (((p.SetBound xmin xmax ymin ymax).Update vel (signedDelta dir delta)).data.Get i j =
        ⟨(p.data.Get i j).x + (vel.Get i j).x * signedDelta dir delta,
         (p.data.Get i j).y + (vel.Get i j).y * signedDelta dir delta⟩)
    ∧ (∀ t : Tensor Bool, p.out_of_bound = some t → t.ny = p.data.ny →
        i * t.ny + j < t.data.length →
        ((p.SetBound xmin xmax ymin ymax).Update vel (signedDelta dir delta)).IsOutOfBound i j =
          ((decide ((p.data.Get i j).x + (vel.Get i j).x * signedDelta dir delta < xmin) ||
            decide ((p.data.Get i j).x + (vel.Get i j).x * signedDelta dir delta > xmax) ||
            decide ((p.data.Get i j).y + (vel.Get i j).y * signedDelta dir delta < ymin) ||
            decide ((p.data.Get i j).y + (vel.Get i j).y * signedDelta dir delta > ymax)) ||
            t.GetValue i j)) := by
  refine ⟨?_, ?_, ?_⟩
  · cases dir <;> rfl
  · have hidx : i * p.data.ny + j < p.data.data.length := by
      rw [hwf]; exact flatIdx_lt hi hj
    simp only [Position.Update, Position.SetBound, Tensor.Get]
    rw [getD_mapIdx _ _ _ _ hidx, flatIdx_div hj, flatIdx_mod hj]
  · intro t ht htny hidxt
    have hjt : j < t.ny := htny ▸ hj
    simp only [Position.Update, Position.SetBound, Position.IsOutOfBound, ht,
      Tensor.GetValue]
    rw [getD_mapIdx _ _ _ _ hidxt, flatIdx_div hjt, flatIdx_mod hjt]
    have hget : t.data.get ⟨i * t.ny + j, hidxt⟩ = t.data.getD (i * t.ny + j) default := by
      rw [List.getD_eq_getElem _ _ hidxt, List.get_eq_getElem]
    rw [hget]
    simp only [Position.outOfBox, Tensor.Get]
    rcases hb : (decide ((p.data.data.getD (i * p.data.ny + j) default).x +
        (vel.Get i j).x * signedDelta dir delta < xmin) ||
        decide ((p.data.data.getD (i * p.data.ny + j) default).x +
        (vel.Get i j).x * signedDelta dir delta > xmax) ||
        decide ((p.data.data.getD (i * p.data.ny + j) default).y +
        (vel.Get i j).y * signedDelta dir delta < ymin) ||
        decide ((p.data.data.getD (i * p.data.ny + j) default).y +
        (vel.Get i j).y * signedDelta dir delta > ymax)) with _ | _ <;>
      simp_all [Tensor.Get]

/-- C1 witness: a concrete one-cell grid, backward direction. -/
theorem Position_Update_spec_witness :
    (⟨⟨1, 1, [⟨0, 0⟩]⟩, some ⟨1, 1, [false]⟩, [0], [0], 0, 0, 0, 0⟩ :
        Position).data.data.length = 1 * 1
    ∧ (runAdvect .Backward
        ((⟨⟨1, 1, [⟨0, 0⟩]⟩, some ⟨1, 1, [false]⟩, [0], [0], 0, 0, 0, 0⟩ :
          Position).SetBound 0 0 0 0) ⟨1, 1, [⟨1, 2⟩]⟩ 1 =
        ((⟨⟨1, 1, [⟨0, 0⟩]⟩, some ⟨1, 1, [false]⟩, [0], [0], 0, 0, 0, 0⟩ :
          Position).SetBound 0 0 0 0).Update ⟨1, 1, [⟨1, 2⟩]⟩
          (signedDelta .Backward 1)) := by
  constructor
  · rfl
  · exact (Position_Update_spec
      (⟨⟨1, 1, [⟨0, 0⟩]⟩, some ⟨1, 1, [false]⟩, [0], [0], 0, 0, 0, 0⟩ : Position)
      ⟨1, 1, [⟨1, 2⟩]⟩ .Backward 1 0 0 0 0 0 0 rfl (by decide) (by decide)).1

/-- Model of the sequence of `Position::Update` calls a run performs on the
current position (one per step, with the velocities and signed deltas the run
supplies). -/
def Position.runUpdates (p : Position) (steps : List (Tensor Vec2 × ℚ)) : Position :=
  steps.foldl (fun q sv => q.Update sv.1 sv.2) p

/-- One `Update` never resets an out-of-bound flag. -/
theorem IsOutOfBound_mono_step (p : Position) (vel : Tensor Vec2) (delta : ℚ)
    (i j : ℕ) (h : p.IsOutOfBound i j = true) :
    (p.Update vel delta).IsOutOfBound i j = true := by
  rcases hob : p.out_of_bound with _ | t
  · simp [Position.IsOutOfBound, hob] at h
  · simp only [Position.IsOutOfBound, hob, Tensor.GetValue] at h
    simp only [Position.Update, Position.IsOutOfBound, hob, Tensor.GetValue]
    by_cases hidx : i * t.ny + j < t.data.length
    · rw [getD_mapIdx _ _ _ _ hidx]
      have hget : t.data.get ⟨i * t.ny + j, hidx⟩ = t.data.getD (i * t.ny + j) default := by
        rw [List.getD_eq_getElem _ _ hidx, List.get_eq_getElem]
      rw [hget, h]
      split <;> rfl
    · rw [List.getD_eq_default _ _ (by simpa using hidx)] at h
      exact absurd h (by decide)

/-- C5: the bitmap created by `InitializeOutOfBoundTensor` reads false at every
cell, and across any sequence of `Update` calls of the run an out-of-bound flag
is monotone: once true it stays true for every longer sequence (so a cell
transitions false to true at most once and is never reset). -/
theorem outOfBound_monotone (p : Position) (steps extra : List (Tensor Vec2 × ℚ))
    (i j : ℕ)
    (h : ((p.InitializeOutOfBoundTensor).runUpdates steps).IsOutOfBound i j = true) :
    (p.InitializeOutOfBoundTensor).IsOutOfBound i j = false
    ∧ ((p.InitializeOutOfBoundTensor).runUpdates (steps ++ extra)).IsOutOfBound i j
        = true := by
  constructor
  · simp only [Position.InitializeOutOfBoundTensor, Position.IsOutOfBound,
      Tensor.GetValue]
    by_cases hk : i * p.data.ny + j < p.data.nx * p.data.ny
    · rw [List.getD_eq_getElem _ _ (by simpa using hk)]
      simp
    · rw [List.getD_eq_default]
      · rfl
      · simpa using hk
  · rw [Position.runUpdates, List.foldl_append]
    have hmono : ∀ (ex : List (Tensor Vec2 × ℚ)) (q : Position),
        q.IsOutOfBound i j = true →
        (ex.foldl (fun r sv => r.Update sv.1 sv.2) q).IsOutOfBound i j = true := by
      intro ex
      induction ex with
      | nil => intro q hq; simpa using hq
      | cons sv rest ih =>
        intro q hq
        exact ih _ (IsOutOfBound_mono_step q sv.1 sv.2 i j hq)
    exact hmono extra _ h

/-- C5 witness: a one-cell grid pushed out of a degenerate bounding box; the
flag is true after one step and stays true after a further step. -/
theorem outOfBound_monotone_witness :
    (((⟨⟨1, 1, [⟨0, 0⟩]⟩, none, [0], [0], 0, 0, 0, 0⟩ :
        Position).InitializeOutOfBoundTensor).runUpdates
        [(⟨1, 1, [⟨1, 0⟩]⟩, 1)]).IsOutOfBound 0 0 = true
    ∧ ((⟨⟨1, 1, [⟨0, 0⟩]⟩, none, [0], [0], 0, 0, 0, 0⟩ :
        Position).InitializeOutOfBoundTensor).IsOutOfBound 0 0 = false
    ∧ (((⟨⟨1, 1, [⟨0, 0⟩]⟩, none, [0], [0], 0, 0, 0, 0⟩ :
        Position).InitializeOutOfBoundTensor).runUpdates
        ([(⟨1, 1, [⟨1, 0⟩]⟩, 1)] ++ [(⟨1, 1, [⟨1, 0⟩]⟩, 1)])).IsOutOfBound 0 0
        = true := by
  have hflag : (((⟨⟨1, 1, [⟨0, 0⟩]⟩, none, [0], [0], 0, 0, 0, 0⟩ :
      Position).InitializeOutOfBoundTensor).runUpdates
      [(⟨1, 1, [⟨1, 0⟩]⟩, 1)]).IsOutOfBound 0 0 = true := by
    norm_num [Position.runUpdates, Position.Update, Position.InitializeOutOfBoundTensor,
      Position.IsOutOfBound, Position.outOfBox, Tensor.Get, Tensor.GetValue,
      List.mapIdx_cons, List.mapIdx_nil, List.foldl, List.replicate]
  refine ⟨hflag, ?_, ?_⟩
  · exact (outOfBound_monotone
      (⟨⟨1, 1, [⟨0, 0⟩]⟩, none, [0], [0], 0, 0, 0, 0⟩ : Position)
      [(⟨1, 1, [⟨1, 0⟩]⟩, 1)] [(⟨1, 1, [⟨1, 0⟩]⟩, 1)] 0 0 hflag).1
  · exact (outOfBound_monotone
      (⟨⟨1, 1, [⟨0, 0⟩]⟩, none, [0], [0], 0, 0, 0, 0⟩ : Position)
      [(⟨1, 1, [⟨1, 0⟩]⟩, 1)] [(⟨1, 1, [⟨1, 0⟩]⟩, 1)] 0 0 hflag).2

/-- Model of `DiscreteFlowField::SetDataTimeRange(t1, t2)` from flow.hpp lines
429-446, returning the stored pair `(begin_data_time_, end_data_time_)`.  The
second ternary in the source reads `(t2 >= t1) ? t2 : t2`, i.e. `end_time` is
`t2` in both branches, and the embedding reproduces that literally. -/
def SetDataTimeRange (dir : Direction) (t1 t2 : ℚ) : ℚ × ℚ :=
  let beginTime := if t2 ≥ t1 then t1 else t2
  let endTime := if t2 ≥ t1 then t2 else t2
  match dir with
  | .Forward => (beginTime, endTime)
  | .Backward => (endTime, beginTime)

/-- C10: whenever `t1 > t2`, both stored anchors are derived from `t2` alone
(both equal `t2` for either direction); when `t2 >= t1`, Forward stores
`(t1, t2)` and Backward stores `(t2, t1)`. -/
theorem SetDataTimeRange_spec (dir : Direction) (t1 t2 : ℚ) :
    (t1 > t2 → SetDataTimeRange dir t1 t2 = (t2, t2))
    ∧ (t2 ≥ t1 → SetDataTimeRange .Forward t1 t2 = (t1, t2)
        ∧ SetDataTimeRange .Backward t1 t2 = (t2, t1)) := by
  constructor
  · intro h
    have hnot : ¬ (t2 ≥ t1) := not_le.mpr h
    cases dir <;> simp [SetDataTimeRange, hnot]
  · intro h
    simp [SetDataTimeRange, h]

/-- C10 witness: with `t1 = 5 > 3 = t2` both anchors collapse to `3` in both
directions; with `t1 = 1 <= 2 = t2` the endpoints are stored properly. -/
theorem SetDataTimeRange_spec_witness :
    SetDataTimeRange .Forward 5 3 = (3, 3)
    ∧ SetDataTimeRange .Backward 5 3 = (3, 3)
    ∧ SetDataTimeRange .Forward 1 2 = (1, 2)
    ∧ SetDataTimeRange .Backward 1 2 = (2, 1) :=
  ⟨(SetDataTimeRange_spec .Forward 5 3).1 (by norm_num),
   (SetDataTimeRange_spec .Backward 5 3).1 (by norm_num),
   ((SetDataTimeRange_spec .Forward 1 2).2 (by norm_num)).1,
   ((SetDataTimeRange_spec .Backward 1 2).2 (by norm_num)).2⟩

/-- Model of `std::upper_bound(v.begin(), v.end(), x)` on a sorted axis, as the
index of the first element strictly greater than `x` (the length when none
is). -/
def upperBound (v : List ℚ) (x : ℚ) : ℕ :=
  v.findIdx fun y => decide (x < y)

/-- The first adjustment of `Velocity::InterpolateFrom` (field.hpp line 375):
`if (iter == end) --iter`. -/
def clampEnd (u len : ℕ) : ℕ :=
  if u = len then u - 1 else u

/-- The second adjustment of `Velocity::InterpolateFrom` (field.hpp line 376):
`if (iter == begin) ++iter`. -/
def clampBegin (u : ℕ) : ℕ :=
  if u = 0 then 1 else u

/-- Model of the bracketing-index selection of `Velocity::InterpolateFrom`
(field.hpp lines 374-384): start from the upper bound, step back one slot when
it is past the end, step forward one slot when it is at the beginning; the
result is `i_next`, with `i_pre = i_next - 1`. -/
def bracketNext (v : List ℚ) (x : ℚ) : ℕ :=
  clampBegin (clampEnd (upperBound v x) v.length)

/-- C8: on a strictly increasing axis with at least two entries the bracket
indices satisfy `1 <= i_next <= length - 1` (hence `i_pre = i_next - 1` is in
bounds as well), the two bracketing coordinates are distinct (strictly
ordered), and a target at or beyond an axis endpoint gets the bracket clamped
one cell inward (first cell, resp. last cell) instead of failing. -/
theorem bracketNext_spec (v : List ℚ) (x : ℚ) (hlen : 2 ≤ v.length)
    (hsort : v.Pairwise (· < ·)) :
    1 ≤ bracketNext v x
    ∧ bracketNext v x ≤ v.length - 1
    ∧ v.getD (bracketNext v x - 1) 0 < v.getD (bracketNext v x) 0
    ∧ (x ≤ v.getD 0 0 → bracketNext v x = 1)
    ∧ (v.getD (v.length - 1) 0 ≤ x → bracketNext v x = v.length - 1) := by
  have hub : upperBound v x ≤ v.length := List.findIdx_le_length _
  have h1 : 1 ≤ bracketNext v x := by
    unfold bracketNext clampBegin
    split <;> omega
  have h2 : bracketNext v x ≤ v.length - 1 := by
    unfold bracketNext clampBegin clampEnd
    by_cases hu : upperBound v x = v.length
    · rw [if_pos hu]
      split <;> omega
    · rw [if_neg hu]
      split <;> omega
  refine ⟨h1, h2, ?_, ?_, ?_⟩
  · have hklt : bracketNext v x < v.length := by omega
    have hplt : bracketNext v x - 1 < v.length := by omega
    rw [List.getD_eq_getElem _ _ hplt, List.getD_eq_getElem _ _ hklt]
    have := List.pairwise_iff_getElem.mp hsort (bracketNext v x - 1) (bracketNext v x)
      hplt hklt (by omega)
    exact this
  · intro hx
    have h0lt : 0 < v.length := by omega
    rw [List.getD_eq_getElem _ _ h0lt] at hx
    have hule : upperBound v x ≤ 1 := by
      by_contra hgt
      push_neg at hgt
      have h1lt : 1 < v.length := by omega
      have hpf : (fun y => decide (x < y)) v[1] = false :=
        List.not_of_lt_findIdx (by simpa [upperBound] using hgt)
      have hv01 : v[0] < v[1] := List.pairwise_iff_getElem.mp hsort 0 1 h0lt h1lt
        (by omega)
      simp only [decide_eq_false_iff_not, not_lt] at hpf
      exact absurd (lt_of_le_of_lt hx hv01) (not_lt.mpr hpf)
    unfold bracketNext clampBegin clampEnd
    rcases Nat.le_one_iff_eq_zero_or_eq_one.mp hule with h | h
    · rw [h, if_neg (by omega : ¬ (0 = v.length))]
      rfl
    · rw [h, if_neg (by omega : ¬ (1 = v.length)), if_neg (by omega : ¬ (1 = 0))]
  · intro hx
    have hllt : v.length - 1 < v.length := by omega
    rw [List.getD_eq_getElem _ _ hllt] at hx
    have hufull : upperBound v x = v.length := by
      unfold upperBound
      rw [List.findIdx_eq_length]
      intro y hy
      rcases List.mem_iff_getElem.mp hy with ⟨k, hk, rfl⟩
      simp only [decide_eq_false_iff_not, not_lt]
      rcases Nat.lt_or_ge k (v.length - 1) with hk1 | hk1
      · exact le_trans (le_of_lt (List.pairwise_iff_getElem.mp hsort k
          (v.length - 1) hk hllt hk1)) hx
      · have : k = v.length - 1 := by omega
        subst this
        exact hx
    unfold bracketNext clampBegin clampEnd
    rw [hufull, if_pos rfl, if_neg (by omega : ¬ (v.length - 1 = 0))]

/-- C8 witness: the axis `[0, 1, 2]` with a target beyond the right endpoint
gets the last cell as its clamped bracket. -/
theorem bracketNext_spec_witness :
    1 ≤ bracketNext [0, 1, 2] 5
    ∧ bracketNext [0, 1, 2] 5 ≤ ([0, 1, 2] : List ℚ).length - 1
    ∧ ([0, 1, 2] : List ℚ).getD (bracketNext [0, 1, 2] 5 - 1) 0 <
        ([0, 1, 2] : List ℚ).getD (bracketNext [0, 1, 2] 5) 0
    ∧ ((5:ℚ) ≤ ([0, 1, 2] : List ℚ).getD 0 0 → bracketNext [0, 1, 2] 5 = 1)
    ∧ (([0, 1, 2] : List ℚ).getD (([0, 1, 2] : List ℚ).length - 1) 0 ≤ 5 →
        bracketNext [0, 1, 2] 5 = ([0, 1, 2] : List ℚ).length - 1) :=
  bracketNext_spec [0, 1, 2] 5 (by norm_num)
    (by norm_num [List.pairwise_cons])

/-- Model of the `Velocity<T,2>` class state from field.hpp: the velocity
samples `data_` and the associated `Position` reference `pos_`. -/
structure Velocity where
  data : Tensor Vec2
  pos : Position
deriving Repr

/-- The bilinear interpolation performed by `Velocity::InterpolateFrom` for a
single in-bound target point at coordinates `(px, py)` (field.hpp lines
374-407): bracket each axis, read the four reference samples, interpolate in
`x` at both bracketing `y`-levels and then in `y`, each velocity component
independently. -/
def interpolateFromCell (refXs refYs : List ℚ) (ref : Tensor Vec2)
    (px py : ℚ) : Vec2 :=
  let iNext := bracketNext refXs px
  let iPre := iNext - 1
  let jNext := bracketNext refYs py
  let jPre := jNext - 1
  let v00 := ref.Get iPre jPre
  let v01 := ref.Get iPre jNext
  let v10 := ref.Get iNext jPre
  let v11 := ref.Get iNext jNext
  let vx1 := interpolate (refXs.getD iPre 0) (refXs.getD iNext 0) v00.x v10.x px
  let vx2 := interpolate (refXs.getD iPre 0) (refXs.getD iNext 0) v01.x v11.x px
  let vxm := interpolate (refYs.getD jPre 0) (refYs.getD jNext 0) vx1 vx2 py
  let vy1 := interpolate (refXs.getD iPre 0) (refXs.getD iNext 0) v00.y v10.y px
  let vy2 := interpolate (refXs.getD iPre 0) (refXs.getD iNext 0) v01.y v11.y px
  let vym := interpolate (refYs.getD jPre 0) (refYs.getD jNext 0) vy1 vy2 py
  ⟨vxm, vym⟩

/-- Model of `Velocity::InterpolateFrom(ref_vel)` from field.hpp lines
355-410: for every target cell, first consult the out-of-bound flag of the
associated position; a flagged cell is skipped (`continue`), leaving its value
untouched; an unflagged cell is overwritten with the bilinear interpolation of
the reference velocity at the cell's current position. -/
def interpolateFromBody (tgt ref : Velocity) (n : ℕ) (c : Vec2) : Vec2 :=
  let i := n / tgt.data.ny
  let j := n % tgt.data.ny
  if tgt.pos.IsOutOfBound i j then c
  else interpolateFromCell ref.pos.pos_xrange ref.pos.pos_yrange ref.data
    ((tgt.pos.data.Get i j).x) ((tgt.pos.data.Get i j).y)

/-- The full per-grid traversal of `Velocity::InterpolateFrom(ref_vel)`:
apply the loop body to every cell. -/
def Velocity.InterpolateFrom (tgt : Velocity) (ref : Velocity) : Velocity :=
  { tgt with
    data := { tgt.data with data := tgt.data.data.mapIdx (interpolateFromBody tgt ref) } }

/-- C9: `InterpolateFrom` leaves every cell whose position is flagged
out-of-bound exactly unchanged (the flag is consulted before any interpolation
work), and overwrites every unflagged cell with the bilinearly interpolated
value. -/
theorem InterpolateFrom_spec (tgt ref : Velocity) (i j : ℕ)
    (hwf : tgt.data.data.length = tgt.data.nx * tgt.data.ny)
    (hi : i < tgt.data.nx) (hj : j < tgt.data.ny) :
    (tgt.pos.IsOutOfBound i j = true →
      (tgt.InterpolateFrom ref).data.Get i j = tgt.data.Get i j)
    ∧ (tgt.pos.IsOutOfBound i j = false →
      (tgt.InterpolateFrom ref).data.Get i j =
        interpolateFromCell ref.pos.pos_xrange ref.pos.pos_yrange ref.data
          ((tgt.pos.data.Get i j).x) ((tgt.pos.data.Get i j).y)) := by
  have hidx : i * tgt.data.ny + j < tgt.data.data.length := by
    rw [hwf]; exact flatIdx_lt hi hj
  constructor
  · intro hflag
    simp only [Velocity.InterpolateFrom, Tensor.Get]
    rw [getD_mapIdx _ _ _ _ hidx]
    simp only [interpolateFromBody]
    rw [flatIdx_div hj, flatIdx_mod hj]
    simp only [hflag, if_true]
    rw [List.getD_eq_getElem _ _ hidx, List.get_eq_getElem]
  · intro hflag
    simp only [Velocity.InterpolateFrom, Tensor.Get]
    rw [getD_mapIdx _ _ _ _ hidx]
    simp only [interpolateFromBody]
    rw [flatIdx_div hj, flatIdx_mod hj]
    simp only [hflag]
    rfl

/-- Concrete one-by-two target velocity whose first position cell is flagged
out-of-bound (used as witness input). -/
def witnessTargetVel : Velocity :=
  ⟨⟨1, 2, [⟨7, 7⟩, ⟨8, 8⟩]⟩,
   ⟨⟨1, 2, [⟨0, 0⟩, ⟨0, 1⟩]⟩, some ⟨1, 2, [true, false]⟩, [0], [0, 1],
    0, 0, 0, 0⟩⟩

/-- Concrete two-by-two reference velocity on the unit square (witness
input). -/
def witnessRefVel : Velocity :=
  ⟨⟨2, 2, [⟨1, 1⟩, ⟨2, 2⟩, ⟨3, 3⟩, ⟨4, 4⟩]⟩,
   ⟨⟨2, 2, [⟨0, 0⟩, ⟨0, 1⟩, ⟨1, 0⟩, ⟨1, 1⟩]⟩, none, [0, 1], [0, 1],
    0, 0, 0, 0⟩⟩

/-- C9 witness: the flagged cell of a concrete target keeps its value. -/
theorem InterpolateFrom_spec_witness :
    witnessTargetVel.pos.IsOutOfBound 0 0 = true
    ∧ (witnessTargetVel.InterpolateFrom witnessRefVel).data.Get 0 0 =
        witnessTargetVel.data.Get 0 0 := by
  constructor
  · rfl
  · exact (InterpolateFrom_spec witnessTargetVel witnessRefVel 0 0 rfl
      (by decide) (by decide)).1 rfl

/-- A rational 2x2 matrix, modelling the `Eigen::Matrix<T,2,2>` objects of
`FTLE::Calculate`; entries `a b / c d` are `(0,0) (0,1) / (1,0) (1,1)`. -/
structure Mat2 where
  a : ℚ
  b : ℚ
  c : ℚ
  d : ℚ
deriving DecidableEq, Repr

/-- Matrix transpose. -/
def Mat2.transpose (m : Mat2) : Mat2 :=
  ⟨m.a, m.c, m.b, m.d⟩

/-- Matrix product. -/
def Mat2.mul (m n : Mat2) : Mat2 :=
  ⟨m.a * n.a + m.b * n.c, m.a * n.b + m.b * n.d,
   m.c * n.a + m.d * n.c, m.c * n.b + m.d * n.d⟩

/-- Model of the deformation-tensor assembly of `FTLE::Calculate` (ftle.hpp
lines 71-78): finite differences of the `GetNearby` neighbours of the current
grid divided by those of the initial grid. -/
def deformation (initPos curPos : Tensor Vec2) (i j : ℕ) : Mat2 :=
  match initPos.GetNearby i j, curPos.GetNearby i j with
  | (x0Pre, x0Next, y0Pre, y0Next), (xPre, xNext, yPre, yNext) =>
    ⟨(xNext.x - xPre.x) / (x0Next.x - x0Pre.x),
     (yNext.x - yPre.x) / (y0Next.y - y0Pre.y),
     (xNext.y - xPre.y) / (x0Next.x - x0Pre.x),
     (yNext.y - yPre.y) / (y0Next.y - y0Pre.y)⟩

/-- Model of `cauchy_green = deformation.transpose() * deformation` (ftle.hpp
line 80). -/
def cauchyGreen (initPos curPos : Tensor Vec2) (i j : ℕ) : Mat2 :=
  (deformation initPos curPos i j).transpose.mul (deformation initPos curPos i j)

/-- The largest eigenvalue of the symmetric matrix `a c / c d` read off the
lower triangle, in closed form; this models
`selfadjointView<Lower>().eigenvalues().maxCoeff()` of ftle.hpp line 82 (the
Eigen `Lower` view reads entries `(0,0)`, `(1,0)`, `(1,1)` only). -/
noncomputable def lambdaMax (m : Mat2) : ℝ :=
  (((m.a : ℝ) + (m.d : ℝ)) +
    Real.sqrt (((m.a : ℝ) - (m.d : ℝ))^2 + 4 * (m.c : ℝ)^2)) / 2

/-- Characteristic polynomial `det(M - ν·id)` of the matrix, evaluated at a
real `ν` (entries cast from ℚ). -/
noncomputable def charPoly (m : Mat2) (ν : ℝ) : ℝ :=
  ((m.a : ℝ) - ν) * ((m.d : ℝ) - ν) - (m.b : ℝ) * (m.c : ℝ)

/-- Model of the per-cell value stored by `FTLE::Calculate` (ftle.hpp line 83):
`0.5 * log(lambda_max) / dt` with `dt = time_ - initial_time_`. -/
noncomputable def ftleValue (initPos curPos : Tensor Vec2) (t0 t : ℚ) (i j : ℕ) : ℝ :=
  (1/2 : ℝ) * Real.log (lambdaMax (cauchyGreen initPos curPos i j)) /
    ((t : ℝ) - (t0 : ℝ))

/-- The claim's wording of the neighbour fetch: axis-neighbours `(i±1, j)`,
`(i, j±1)` with the cell itself substituted for a missing neighbour at a grid
boundary (one-sided difference). -/
def nearbySpec (t : Tensor Vec2) (i j : ℕ) : Vec2 × Vec2 × Vec2 × Vec2 :=
  (if i = 0 then t.Get i j else t.Get (i-1) j,
   if t.nx - 1 ≤ i then t.Get i j else t.Get (i+1) j,
   if j = 0 then t.Get i j else t.Get i (j-1),
   if t.ny - 1 ≤ j then t.Get i j else t.Get i (j+1))

/-- The deformation gradient as described by the claim: built from the
`nearbySpec` neighbour coordinates of the two position grids. -/
def deformationSpec (initPos curPos : Tensor Vec2) (i j : ℕ) : Mat2 :=
  match nearbySpec initPos i j, nearbySpec curPos i j with
  | (x0Pre, x0Next, y0Pre, y0Next), (xPre, xNext, yPre, yNext) =>
    ⟨(xNext.x - xPre.x) / (x0Next.x - x0Pre.x),
     (yNext.x - yPre.x) / (y0Next.y - y0Pre.y),
     (xNext.y - xPre.y) / (x0Next.x - x0Pre.x),
     (yNext.y - yPre.y) / (y0Next.y - y0Pre.y)⟩

/-- For in-range cells the source's `GetNearby` agrees with the claim's
boundary-substitution description. -/
theorem GetNearby_eq_nearbySpec (t : Tensor Vec2) (i j : ℕ)
    (hi : i < t.nx) (hj : j < t.ny) :
    t.GetNearby i j = nearbySpec t i j := by
  simp only [Tensor.GetNearby, nearbySpec]
  refine congrArg₂ Prod.mk ?_ (congrArg₂ Prod.mk ?_ (congrArg₂ Prod.mk ?_ ?_))
  · by_cases h : i = 0
    · rw [if_neg (by omega), if_pos h]
    · rw [if_pos (by omega), if_neg h]
  · by_cases h : t.nx - 1 ≤ i
    · rw [if_neg (by omega), if_pos h]
    · rw [if_pos (by omega), if_neg h]
  · by_cases h : j = 0
    · rw [if_neg (by omega), if_pos h]
    · rw [if_pos (by omega), if_neg h]
  · by_cases h : t.ny - 1 ≤ j
    · rw [if_neg (by omega), if_pos h]
    · rw [if_pos (by omega), if_neg h]

/-- The Cauchy-Green tensor is symmetric. -/
theorem cauchyGreen_symm (initPos curPos : Tensor Vec2) (i j : ℕ) :
    (cauchyGreen initPos curPos i j).b = (cauchyGreen initPos curPos i j).c := by
  simp only [cauchyGreen, Mat2.mul, Mat2.transpose]
  ring

/-- The closed-form `lambdaMax` of a symmetric matrix is a root of the
characteristic polynomial and dominates every real root: it is the largest
eigenvalue. -/
theorem lambdaMax_spec (m : Mat2) (hbc : m.b = m.c) :
    charPoly m (lambdaMax m) = 0
    ∧ ∀ ν : ℝ, charPoly m ν = 0 → ν ≤ lambdaMax m := by
  set a : ℝ := (m.a : ℝ) with ha
  set c : ℝ := (m.c : ℝ) with hc
  set d : ℝ := (m.d : ℝ) with hd
  have hD : (0:ℝ) ≤ (a - d)^2 + 4 * c^2 := by positivity
  have hs : Real.sqrt ((a - d)^2 + 4 * c^2) ^ 2 = (a - d)^2 + 4 * c^2 :=
    Real.sq_sqrt hD
  have hsnn : 0 ≤ Real.sqrt ((a - d)^2 + 4 * c^2) := Real.sqrt_nonneg _
  have hbceq : (m.b : ℝ) = c := by rw [hc]; exact_mod_cast hbc
  constructor
  · simp only [charPoly, lambdaMax, hbceq, ← ha, ← hc, ← hd]
    linear_combination (1/4 : ℝ) * hs
  · intro ν hν
    simp only [charPoly, hbceq, ← ha, ← hc, ← hd] at hν
    simp only [lambdaMax, ← ha, ← hc, ← hd]
    nlinarith [hs, hsnn, sq_nonneg (2*ν - a - d - Real.sqrt ((a - d)^2 + 4 * c^2)),
      sq_nonneg (2*ν - a - d + Real.sqrt ((a - d)^2 + 4 * c^2))]

/-- C2: for `dt != 0` every cell value of `Calculate` equals
`0.5 * ln(mu) / dt`, where `mu` is the largest eigenvalue (largest root of the
characteristic polynomial) of the Cauchy-Green tensor `F^T F`, and `F` is the
deformation gradient built from finite differences of the axis-neighbour
coordinates of the current and initial position grids with the cell itself
substituted for a missing neighbour at a grid boundary. -/
theorem FTLE_Calculate_spec (initPos curPos : Tensor Vec2) (t0 t : ℚ) (i j : ℕ)
    (hi0 : i < initPos.nx) (hj0 : j < initPos.ny)
    (hi : i < curPos.nx) (hj : j < curPos.ny)
    (hdt : t ≠ t0) :
    ∃ μ : ℝ,
      ftleValue initPos curPos t0 t i j =
        (1/2 : ℝ) * Real.log μ / ((t : ℝ) - (t0 : ℝ))
      ∧ charPoly (cauchyGreen initPos curPos i j) μ = 0
      ∧ (∀ ν : ℝ, charPoly (cauchyGreen initPos curPos i j) ν = 0 →
          ν ≤ μ)
      ∧ cauchyGreen initPos curPos i j =
          (deformationSpec initPos curPos i j).transpose.mul
            (deformationSpec initPos curPos i j) := by
  refine ⟨lambdaMax (cauchyGreen initPos curPos i j), rfl, ?_, ?_, ?_⟩
  · exact (lambdaMax_spec _ (cauchyGreen_symm initPos curPos i j)).1
  · exact (lambdaMax_spec _ (cauchyGreen_symm initPos curPos i j)).2
  · have h1 : deformation initPos curPos i j = deformationSpec initPos curPos i j := by
      unfold deformation deformationSpec
      rw [GetNearby_eq_nearbySpec initPos i j hi0 hj0,
        GetNearby_eq_nearbySpec curPos i j hi hj]
    rw [cauchyGreen, h1]

/-- C2 witness: concrete 2x2 grids (current = twice the initial coordinates)
at `t0 = 0`, `t = 1`. -/
theorem FTLE_Calculate_spec_witness :
    ∃ μ : ℝ,
      ftleValue ⟨2, 2, [⟨0, 0⟩, ⟨0, 1⟩, ⟨1, 0⟩, ⟨1, 1⟩]⟩
          ⟨2, 2, [⟨0, 0⟩, ⟨0, 2⟩, ⟨2, 0⟩, ⟨2, 2⟩]⟩ 0 1 0 0 =
        (1/2 : ℝ) * Real.log μ / (((1 : ℚ) : ℝ) - ((0 : ℚ) : ℝ))
      ∧ charPoly (cauchyGreen ⟨2, 2, [⟨0, 0⟩, ⟨0, 1⟩, ⟨1, 0⟩, ⟨1, 1⟩]⟩
          ⟨2, 2, [⟨0, 0⟩, ⟨0, 2⟩, ⟨2, 0⟩, ⟨2, 2⟩]⟩ 0 0) μ = 0
      ∧ (∀ ν : ℝ, charPoly (cauchyGreen ⟨2, 2, [⟨0, 0⟩, ⟨0, 1⟩, ⟨1, 0⟩, ⟨1, 1⟩]⟩
          ⟨2, 2, [⟨0, 0⟩, ⟨0, 2⟩, ⟨2, 0⟩, ⟨2, 2⟩]⟩ 0 0) ν = 0 → ν ≤ μ)
      ∧ cauchyGreen ⟨2, 2, [⟨0, 0⟩, ⟨0, 1⟩, ⟨1, 0⟩, ⟨1, 1⟩]⟩
          ⟨2, 2, [⟨0, 0⟩, ⟨0, 2⟩, ⟨2, 0⟩, ⟨2, 2⟩]⟩ 0 0 =
          (deformationSpec ⟨2, 2, [⟨0, 0⟩, ⟨0, 1⟩, ⟨1, 0⟩, ⟨1, 1⟩]⟩
            ⟨2, 2, [⟨0, 0⟩, ⟨0, 2⟩, ⟨2, 0⟩, ⟨2, 2⟩]⟩ 0 0).transpose.mul
            (deformationSpec ⟨2, 2, [⟨0, 0⟩, ⟨0, 1⟩, ⟨1, 0⟩, ⟨1, 1⟩]⟩
              ⟨2, 2, [⟨0, 0⟩, ⟨0, 2⟩, ⟨2, 0⟩, ⟨2, 2⟩]⟩ 0 0) :=
  FTLE_Calculate_spec ⟨2, 2, [⟨0, 0⟩, ⟨0, 1⟩, ⟨1, 0⟩, ⟨1, 1⟩]⟩
    ⟨2, 2, [⟨0, 0⟩, ⟨0, 2⟩, ⟨2, 0⟩, ⟨2, 2⟩]⟩ 0 1 0 0
    (by decide) (by decide) (by decide) (by decide) (by norm_num)

/-- The time-related state of a `DiscreteFlowField` run (flow.hpp): exactly
the members that `SetCurrentVelocity` and `UpdateTime` read and write.  The
two snapshot buffers are represented by their time stamps
(`previous_data_vel_->GetTime()` and `next_data_vel_->GetTime()`); the
temporal/spatial interpolation calls at the end of `SetCurrentVelocity` do
not modify any of these fields. -/
structure FlowState where
  direction : Direction
  delta : ℚ
  dataDelta : ℚ
  initialTime : ℚ
  currentTime : ℚ
  currentDataTime : ℚ
  beginDataTime : ℚ
  endDataTime : ℚ
  prevVelTime : ℚ
  nextVelTime : ℚ
deriving DecidableEq, Repr

/-- The `signed_data_delta` local of `SetCurrentVelocity` (flow.hpp line
292). -/
def signedDataDelta (st : FlowState) : ℚ :=
  match st.direction with
  | .Forward => st.dataDelta
  | .Backward => -st.dataDelta

/-- The Forward initialization loop of `SetCurrentVelocity` (flow.hpp lines
302-304): `while (cdt < initial_time) cdt += signed_data_delta`, with
`signed_data_delta = data_delta`.  The extra guard `0 < d` totalizes the
function: with `d <= 0` and the loop entered the C++ loop never terminates,
and every theorem below assumes `0 < d`. -/
def seekForward (initT d cur : ℚ) : ℚ :=
  if h : cur < initT ∧ 0 < d then seekForward initT d (cur + d) else cur
termination_by (⌈(initT - cur) / d⌉).toNat
decreasing_by
  have hd : 0 < d := h.2
  have hr : 0 < (initT - cur) / d := div_pos (by linarith [h.1]) hd
  have hceil : 0 < ⌈(initT - cur) / d⌉ := Int.ceil_pos.mpr hr
  have heq : (initT - (cur + d)) / d = (initT - cur) / d - 1 := by
    field_simp
    ring
  rw [heq, Int.ceil_sub_one]
  omega

/-- The Backward initialization loop of `SetCurrentVelocity` (flow.hpp lines
306-308): `while (cdt > initial_time) cdt -= signed_data_delta`, where
`signed_data_delta = -data_delta`, so each iteration adds `data_delta`.  The
guard `d < 0` totalizes the function: with `d >= 0` and the loop entered the
C++ loop never terminates, and the theorems below only evaluate this function
on states where the loop body is never entered. -/
def seekBackward (initT d cur : ℚ) : ℚ :=
  if h : initT < cur ∧ d < 0 then seekBackward initT d (cur + d) else cur
termination_by (⌈(cur - initT) / (-d)⌉).toNat
decreasing_by
  have hd : 0 < -d := by linarith [h.2]
  have hr : 0 < (cur - initT) / (-d) := div_pos (by linarith [h.1]) hd
  have hceil : 0 < ⌈(cur - initT) / (-d)⌉ := Int.ceil_pos.mpr hr
  have heq : (cur + d - initT) / (-d) = (cur - initT) / (-d) - 1 := by
    have h1 : cur + d - initT = (cur - initT) + d := by ring
    have h2 : d / (-d) = -1 := by
      rw [div_neg, div_self (by linarith [h.2] : d ≠ 0)]
    rw [h1, add_div, h2]
    ring
  rw [heq, Int.ceil_sub_one]
  omega

/-- The anchor established by the initialization branch of
`SetCurrentVelocity` (flow.hpp lines 297-311): the value of
`current_data_time_` after the direction-dependent seek loop starting at
`begin_data_time_`. -/
def scvAnchor (st : FlowState) : ℚ :=
  match st.direction with
  | .Forward => seekForward st.initialTime st.dataDelta st.beginDataTime
  | .Backward => seekBackward st.initialTime st.dataDelta st.beginDataTime

/-- Model of `DiscreteFlowField::SetCurrentVelocity` (flow.hpp lines 290-369)
on the time state.  Branches: initialization (first step of a run, when
`current_time_ == initial_time_`), bracket advance, and no-op.  The second
component lists the snapshot times passed to `ReadDataVelocityFromFile`
during the call (each buffer's `UpdateTime` is immediately followed by a file
load at that buffer's time). -/
def setCurrentVelocity (st : FlowState) : FlowState × List ℚ :=
  if st.currentTime = st.initialTime then
    ({ st with currentDataTime := scvAnchor st,
               prevVelTime := scvAnchor st,
               nextVelTime := scvAnchor st + signedDataDelta st },
     [scvAnchor st, scvAnchor st + signedDataDelta st])
  else if (st.currentTime ≥ st.currentDataTime + signedDataDelta st
        ∧ st.endDataTime > st.currentDataTime + signedDataDelta st
        ∧ st.direction = .Forward)
      ∨ (st.currentTime ≤ st.currentDataTime + signedDataDelta st
        ∧ st.endDataTime < st.currentDataTime + signedDataDelta st
        ∧ st.direction = .Backward) then
    ({ st with currentDataTime := st.currentDataTime + signedDataDelta st,
               prevVelTime := st.currentDataTime + signedDataDelta st,
               nextVelTime := st.currentDataTime + signedDataDelta st + signedDataDelta st },
     [st.currentDataTime + signedDataDelta st,
      st.currentDataTime + signedDataDelta st + signedDataDelta st])
  else
    (st, [])

/-- Model of `FlowField::UpdateTime()` (flow.hpp lines 136-146): advance
`current_time_` by `±delta_` according to the direction (the member then only
copies the new time into the position/velocity buffers). -/
def updateTime (st : FlowState) : FlowState :=
  match st.direction with
  | .Forward => { st with currentTime := st.currentTime + st.delta }
  | .Backward => { st with currentTime := st.currentTime - st.delta }

/-- The time state after `n` full steps of the `FlowField::Run` loop
(flow.hpp lines 174-199): each step performs `SetCurrentVelocity`, the
position update (which does not touch the time state), then `UpdateTime`. -/
def runN (st : FlowState) : ℕ → FlowState
  | 0 => st
  | n+1 => updateTime (setCurrentVelocity (runN st n)).1

/-- All snapshot times loaded during the first `n` steps of a run. -/
def runLoads (st : FlowState) : ℕ → List ℚ
  | 0 => []
  | n+1 => runLoads st n ++ (setCurrentVelocity (runN st n)).2

/-- Direction-aware test that the current time has reached or passed the far
end of the bracket, `current_data_time_ + signed_data_delta` (first conjunct
of the advance condition, flow.hpp lines 331 and 334). -/
def movedPastNext (st : FlowState) : Prop :=
  match st.direction with
  | .Forward => st.currentTime ≥ st.currentDataTime + signedDataDelta st
  | .Backward => st.currentTime ≤ st.currentDataTime + signedDataDelta st

/-- Direction-aware test that the advanced anchor still lies strictly before
the configured end-of-data time (second conjunct of the advance condition,
flow.hpp lines 332 and 335). -/
def endRoom (st : FlowState) : Prop :=
  match st.direction with
  | .Forward => st.endDataTime > st.currentDataTime + signedDataDelta st
  | .Backward => st.endDataTime < st.currentDataTime + signedDataDelta st

/-- Seeking from a point `k` whole intervals below the target lands exactly on
the target. -/
theorem seekForward_grid (initT d : ℚ) (hd : 0 < d) (k : ℕ) :
    seekForward initT d (initT - k * d) = initT := by
  induction k with
  | zero =>
    rw [seekForward, dif_neg (by simp)]
    simp
  | succ n ih =>
    have hlt : initT - ((n+1 : ℕ) : ℚ) * d < initT := by
      have : (0:ℚ) < ((n+1 : ℕ) : ℚ) * d := by positivity
      linarith
    rw [seekForward, dif_pos ⟨hlt, hd⟩]
    have harg : initT - ((n+1 : ℕ) : ℚ) * d + d = initT - (n : ℚ) * d := by
      push_cast
      ring
    rw [harg]
    exact ih

/-- Seeking from the target itself is a no-op (the Backward loop body is never
entered). -/
theorem seekBackward_self (initT d : ℚ) : seekBackward initT d initT = initT := by
  rw [seekBackward, dif_neg (by simp)]

/-- The advance condition of the source is the conjunction of the two
direction-aware tests. -/
theorem advance_cond_iff (st : FlowState) :
    ((st.currentTime ≥ st.currentDataTime + signedDataDelta st
      ∧ st.endDataTime > st.currentDataTime + signedDataDelta st
      ∧ st.direction = .Forward)
     ∨ (st.currentTime ≤ st.currentDataTime + signedDataDelta st
      ∧ st.endDataTime < st.currentDataTime + signedDataDelta st
      ∧ st.direction = .Backward))
    ↔ (movedPastNext st ∧ endRoom st) := by
  cases hdir : st.direction <;>
    simp [movedPastNext, endRoom, hdir, and_assoc]

/-- Branch equation: the initialization branch. -/
theorem scv_eq_init (st : FlowState) (h : st.currentTime = st.initialTime) :
    setCurrentVelocity st =
      ({ st with currentDataTime := scvAnchor st,
                 prevVelTime := scvAnchor st,
                 nextVelTime := scvAnchor st + signedDataDelta st },
       [scvAnchor st, scvAnchor st + signedDataDelta st]) := by
  unfold setCurrentVelocity
  rw [if_pos h]

/-- Branch equation: the bracket-advance branch. -/
theorem scv_eq_advance (st : FlowState) (h : st.currentTime ≠ st.initialTime)
    (hc : movedPastNext st ∧ endRoom st) :
    setCurrentVelocity st =
      ({ st with currentDataTime := st.currentDataTime + signedDataDelta st,
                 prevVelTime := st.currentDataTime + signedDataDelta st,
                 nextVelTime := st.currentDataTime + signedDataDelta st
                   + signedDataDelta st },
       [st.currentDataTime + signedDataDelta st,
        st.currentDataTime + signedDataDelta st + signedDataDelta st]) := by
  unfold setCurrentVelocity
  rw [if_neg h, if_pos ((advance_cond_iff st).mpr hc)]

/-- Branch equation: the no-op branch. -/
theorem scv_eq_noop (st : FlowState) (h : st.currentTime ≠ st.initialTime)
    (hc : ¬ (movedPastNext st ∧ endRoom st)) :
    setCurrentVelocity st = (st, []) := by
  unfold setCurrentVelocity
  rw [if_neg h, if_neg (fun hx => hc ((advance_cond_iff st).mp hx))]

/-- `updateTime` changes only `currentTime`. -/
theorem updateTime_proj (x : FlowState) :
    (updateTime x).direction = x.direction
    ∧ (updateTime x).delta = x.delta
    ∧ (updateTime x).dataDelta = x.dataDelta
    ∧ (updateTime x).initialTime = x.initialTime
    ∧ (updateTime x).beginDataTime = x.beginDataTime
    ∧ (updateTime x).endDataTime = x.endDataTime
    ∧ (updateTime x).currentDataTime = x.currentDataTime
    ∧ (updateTime x).prevVelTime = x.prevVelTime
    ∧ (updateTime x).nextVelTime = x.nextVelTime := by
  unfold updateTime
  cases x.direction <;> simp

/-- The effect of `updateTime` on the current time. -/
theorem updateTime_currentTime (x : FlowState) :
    (updateTime x).currentTime = x.currentTime + signedDelta x.direction x.delta := by
  unfold updateTime signedDelta
  cases x.direction <;> simp <;> ring

/-- `setCurrentVelocity` changes none of the configuration fields nor the
current time. -/
theorem scv_proj (x : FlowState) :
    (setCurrentVelocity x).1.direction = x.direction
    ∧ (setCurrentVelocity x).1.delta = x.delta
    ∧ (setCurrentVelocity x).1.dataDelta = x.dataDelta
    ∧ (setCurrentVelocity x).1.initialTime = x.initialTime
    ∧ (setCurrentVelocity x).1.beginDataTime = x.beginDataTime
    ∧ (setCurrentVelocity x).1.endDataTime = x.endDataTime
    ∧ (setCurrentVelocity x).1.currentTime = x.currentTime := by
  unfold setCurrentVelocity
  split_ifs <;> simp

/-- Configuration fields are constant along a run. -/
theorem runN_proj (st : FlowState) (n : ℕ) :
    (runN st n).direction = st.direction
    ∧ (runN st n).delta = st.delta
    ∧ (runN st n).dataDelta = st.dataDelta
    ∧ (runN st n).initialTime = st.initialTime
    ∧ (runN st n).beginDataTime = st.beginDataTime
    ∧ (runN st n).endDataTime = st.endDataTime := by
  induction n with
  | zero => exact ⟨rfl, rfl, rfl, rfl, rfl, rfl⟩
  | succ m ih =>
    obtain ⟨i1, i2, i3, i4, i5, i6⟩ := ih
    obtain ⟨s1, s2, s3, s4, s5, s6, _⟩ := scv_proj (runN st m)
    obtain ⟨u1, u2, u3, u4, u5, u6, _, _, _⟩ :=
      updateTime_proj (setCurrentVelocity (runN st m)).1
    exact ⟨u1.trans (s1.trans i1), u2.trans (s2.trans i2), u3.trans (s3.trans i3),
      u4.trans (s4.trans i4), u5.trans (s5.trans i5), u6.trans (s6.trans i6)⟩

/-- The current time after `n` steps. -/
theorem runN_currentTime (st : FlowState) (n : ℕ) :
    (runN st n).currentTime =
      st.currentTime + n * signedDelta st.direction st.delta := by
  induction n with
  | zero => simp [runN]
  | succ m ih =>
    show (updateTime (setCurrentVelocity (runN st m)).1).currentTime = _
    rw [updateTime_currentTime]
    obtain ⟨s1, s2, _, _, _, _, s7⟩ := scv_proj (runN st m)
    obtain ⟨r1, r2, _, _, _, _⟩ := runN_proj st m
    rw [s1, s2, s7, r1, r2, ih]
    push_cast
    ring

/-- `signedDataDelta` only depends on direction and data interval. -/
theorem signedDataDelta_congr {x y : FlowState} (h1 : x.direction = y.direction)
    (h2 : x.dataDelta = y.dataDelta) : signedDataDelta x = signedDataDelta y := by
  unfold signedDataDelta
  rw [h1, h2]

/-- A positive step has a nonzero signed value in either direction. -/
theorem signedDelta_ne_zero (dir : Direction) (δ : ℚ) (h : 0 < δ) :
    signedDelta dir δ ≠ 0 := by
  cases dir
  · exact ne_of_gt h
  · simp only [signedDelta, neg_ne_zero]
    exact ne_of_gt h

set_option maxHeartbeats 1600000 in
/-- Bracket invariant of a well-configured run, by induction on the step
index: after the `SetCurrentVelocity` call of any step, the two buffer times
are the anchor and the anchor plus the signed data interval, and the current
simulation time lies inside the bracket (direction-aware).  Hypotheses: the
run starts at the initial time; the data interval is positive; the advection
step is positive and no larger than the data interval; the initial time is
reachable from the begin-data-time by whole signed data intervals; and every
simulation time of the run lies strictly inside the end-of-data time. -/
theorem bracketInvAux (st : FlowState) (n : ℕ)
    (h0 : st.currentTime = st.initialTime)
    (hd : 0 < st.dataDelta)
    (hdl : 0 < st.delta)
    (hdd : st.delta ≤ st.dataDelta)
    (hgridF : st.direction = .Forward →
      ∃ k : ℕ, st.initialTime = st.beginDataTime + k * st.dataDelta)
    (hgridB : st.direction = .Backward → st.initialTime = st.beginDataTime)
    (hendF : st.direction = .Forward →
      st.initialTime + n * st.delta < st.endDataTime)
    (hendB : st.direction = .Backward →
      st.endDataTime < st.initialTime - n * st.delta) :
    ∀ m, m ≤ n →
      (setCurrentVelocity (runN st m)).1.prevVelTime
          = (setCurrentVelocity (runN st m)).1.currentDataTime
      ∧ (setCurrentVelocity (runN st m)).1.nextVelTime
          = (setCurrentVelocity (runN st m)).1.currentDataTime + signedDataDelta st
      ∧ (st.direction = .Forward →
          (setCurrentVelocity (runN st m)).1.currentDataTime
              ≤ (runN st m).currentTime
          ∧ (runN st m).currentTime
              ≤ (setCurrentVelocity (runN st m)).1.currentDataTime + st.dataDelta)
      ∧ (st.direction = .Backward →
          (setCurrentVelocity (runN st m)).1.currentDataTime - st.dataDelta
              ≤ (runN st m).currentTime
          ∧ (runN st m).currentTime
              ≤ (setCurrentVelocity (runN st m)).1.currentDataTime) := by
  intro m
  induction m with
  | zero =>
    intro _
    rw [show runN st 0 = st from rfl, scv_eq_init st h0]
    refine ⟨rfl, rfl, ?_, ?_⟩
    · intro hF
      have hanchor : scvAnchor st = st.initialTime := by
        obtain ⟨k, hk⟩ := hgridF hF
        have hb : st.beginDataTime = st.initialTime - (k : ℚ) * st.dataDelta := by
          linarith [hk]
        simp only [scvAnchor, hF]
        rw [hb]
        exact seekForward_grid st.initialTime st.dataDelta hd k
      dsimp only
      rw [hanchor, h0]
      constructor
      · exact le_refl _
      · linarith
    · intro hB
      have hanchor : scvAnchor st = st.initialTime := by
        simp only [scvAnchor, hB]
        rw [← hgridB hB]
        exact seekBackward_self st.initialTime st.dataDelta
      dsimp only
      rw [hanchor, h0]
      constructor
      · linarith
      · exact le_refl _
  | succ m ih =>
    intro hmn
    have hm' : m ≤ n := by omega
    obtain ⟨ihA, ihB, ihF, ihBk⟩ := ih hm'
    have hr : runN st (m+1) = updateTime (setCurrentVelocity (runN st m)).1 := rfl
    obtain ⟨u1, _, u3, u4, _, u6, u7, u8, u9⟩ :=
      updateTime_proj (setCurrentVelocity (runN st m)).1
    obtain ⟨s1, _, s3, s4, _, s6, s7⟩ := scv_proj (runN st m)
    obtain ⟨r1, _, r3, r4, _, r6⟩ := runN_proj st m
    obtain ⟨p1, _, p3, p4, _, p6⟩ := runN_proj st (m+1)
    have hsd : signedDataDelta (runN st (m+1)) = signedDataDelta st :=
      signedDataDelta_congr p1 p3
    have hctm : (runN st m).currentTime =
        st.initialTime + m * signedDelta st.direction st.delta := by
      rw [runN_currentTime, h0]
    have hctm1 : (runN st (m+1)).currentTime =
        st.initialTime + (m+1 : ℕ) * signedDelta st.direction st.delta := by
      rw [runN_currentTime, h0]
    have hstep : (runN st (m+1)).currentTime =
        (runN st m).currentTime + signedDelta st.direction st.delta := by
      rw [hctm, hctm1]
      push_cast
      ring
    have hmn' : ((m:ℚ) + 1) ≤ (n:ℚ) := by
      have hc1 : (m+1 : ℕ) ≤ n := hmn
      exact_mod_cast hc1
    have hmono : ((m+1 : ℕ) : ℚ) * st.delta ≤ (n : ℚ) * st.delta := by
      apply mul_le_mul_of_nonneg_right _ (le_of_lt hdl)
      push_cast
      linarith only [hmn']
    have hne : (runN st (m+1)).currentTime ≠ (runN st (m+1)).initialTime := by
      rw [p4, hctm1]
      intro hcon
      have h1 : ((m+1 : ℕ) : ℚ) * signedDelta st.direction st.delta = 0 := by
        linarith only [hcon]
      rcases mul_eq_zero.mp h1 with h2 | h2
      · exact Nat.cast_ne_zero.mpr (Nat.succ_ne_zero m) h2
      · exact signedDelta_ne_zero st.direction st.delta hdl h2
    by_cases hc : movedPastNext (runN st (m+1)) ∧ endRoom (runN st (m+1))
    · rw [scv_eq_advance (runN st (m+1)) hne hc]
      refine ⟨rfl, ?_, ?_, ?_⟩
      · dsimp only
        rw [hsd]
      · intro hF
        have hsdF : signedDataDelta st = st.dataDelta := by
          simp [signedDataDelta, hF]
        have hdirr : (runN st (m+1)).direction = Direction.Forward := by
          rw [p1, hF]
        have hmp := hc.1
        simp only [movedPastNext, hdirr] at hmp
        rw [hsd, hsdF] at hmp
        have hcdt : (runN st (m+1)).currentDataTime
            = (setCurrentVelocity (runN st m)).1.currentDataTime := by
          rw [hr, u7]
        obtain ⟨hlo, hhi⟩ := ihF hF
        have hsw : signedDelta st.direction st.delta = st.delta := by
          simp [signedDelta, hF]
        dsimp only
        rw [hsd, hsdF]
        constructor
        · exact hmp
        · rw [hstep, hsw, hcdt]
          linarith only [hhi, hdd]
      · intro hB
        have hsdB : signedDataDelta st = -st.dataDelta := by
          simp [signedDataDelta, hB]
        have hdirr : (runN st (m+1)).direction = Direction.Backward := by
          rw [p1, hB]
        have hmp := hc.1
        simp only [movedPastNext, hdirr] at hmp
        rw [hsd, hsdB] at hmp
        have hcdt : (runN st (m+1)).currentDataTime
            = (setCurrentVelocity (runN st m)).1.currentDataTime := by
          rw [hr, u7]
        obtain ⟨hlo, hhi⟩ := ihBk hB
        have hsw : signedDelta st.direction st.delta = -st.delta := by
          simp [signedDelta, hB]
        dsimp only
        rw [hsd, hsdB]
        constructor
        · rw [hstep, hsw, hcdt]
          linarith only [hlo, hdd]
        · linarith only [hmp]
    · rw [scv_eq_noop (runN st (m+1)) hne hc]
      have hprev : (runN st (m+1)).prevVelTime
          = (runN st (m+1)).currentDataTime := by
        rw [hr, u7, u8, ihA]
      have hnext : (runN st (m+1)).nextVelTime
          = (runN st (m+1)).currentDataTime + signedDataDelta st := by
        rw [hr, u7, u9, ihB]
      have hcdt : (runN st (m+1)).currentDataTime
          = (setCurrentVelocity (runN st m)).1.currentDataTime := by
        rw [hr, u7]
      refine ⟨hprev, hnext, ?_, ?_⟩
      · intro hF
        have hsdF : signedDataDelta st = st.dataDelta := by
          simp [signedDataDelta, hF]
        have hdirr : (runN st (m+1)).direction = Direction.Forward := by
          rw [p1, hF]
        have hsw : signedDelta st.direction st.delta = st.delta := by
          simp [signedDelta, hF]
        obtain ⟨hlo, hhi⟩ := ihF hF
        have hct1 : (runN st (m+1)).currentTime
            = (runN st m).currentTime + st.delta := by
          rw [hstep, hsw]
        have hlt : (runN st (m+1)).currentTime < st.endDataTime := by
          rw [hctm1, hsw]
          have hend' := hendF hF
          linarith only [hend', hmono]
        have hupper : (runN st (m+1)).currentTime
            ≤ (runN st (m+1)).currentDataTime + st.dataDelta := by
          by_contra hx
          push_neg at hx
          apply hc
          constructor
          · simp only [movedPastNext, hdirr]
            rw [hsd, hsdF]
            linarith only [hx]
          · simp only [endRoom, hdirr]
            rw [hsd, hsdF, p6]
            linarith only [hx, hlt]
        constructor
        · rw [hct1, hcdt]
          linarith only [hlo, hdl]
        · exact hupper
      · intro hB
        have hsdB : signedDataDelta st = -st.dataDelta := by
          simp [signedDataDelta, hB]
        have hdirr : (runN st (m+1)).direction = Direction.Backward := by
          rw [p1, hB]
        have hsw : signedDelta st.direction st.delta = -st.delta := by
          simp [signedDelta, hB]
        obtain ⟨hlo, hhi⟩ := ihBk hB
        have hct1 : (runN st (m+1)).currentTime
            = (runN st m).currentTime - st.delta := by
          rw [hstep, hsw]
          ring
        have hlt : st.endDataTime < (runN st (m+1)).currentTime := by
          rw [hctm1, hsw]
          have hend' := hendB hB
          have hcast : ((m+1 : ℕ) : ℚ) * -st.delta = -(((m+1 : ℕ) : ℚ) * st.delta) := by
            ring
          rw [hcast]
          linarith only [hend', hmono]
        have hlower : (runN st (m+1)).currentDataTime - st.dataDelta
            ≤ (runN st (m+1)).currentTime := by
          by_contra hx
          push_neg at hx
          apply hc
          constructor
          · simp only [movedPastNext, hdirr]
            rw [hsd, hsdB]
            linarith only [hx]
          · simp only [endRoom, hdirr]
            rw [hsd, hsdB, p6]
            linarith only [hx, hlt]
        constructor
        · exact hlower
        · rw [hct1, hcdt]
          linarith only [hhi, hdl]

/-- C3 (amended): in a run with positive data interval, advection step
`0 < delta <= data_delta`, initial time reachable from the begin-data-time by
whole signed data intervals (Forward: `initial = begin + k*data_delta`;
Backward: `initial = begin`), and every simulation time of the run strictly
inside the end-of-data time (direction-aware), after each
`SetCurrentVelocity` call within a step `previous.time` and `next.time`
differ by exactly the signed data interval and the current simulation time
lies within `[previous.time, next.time]` (direction-aware). -/
theorem DiscreteFlowField_bracket_spec (st : FlowState) (n m : ℕ)
    (h0 : st.currentTime = st.initialTime)
    (hd : 0 < st.dataDelta)
    (hdl : 0 < st.delta)
    (hdd : st.delta ≤ st.dataDelta)
    (hgridF : st.direction = .Forward →
      ∃ k : ℕ, st.initialTime = st.beginDataTime + k * st.dataDelta)
    (hgridB : st.direction = .Backward → st.initialTime = st.beginDataTime)
    (hendF : st.direction = .Forward →
      st.initialTime + n * st.delta < st.endDataTime)
    (hendB : st.direction = .Backward →
      st.endDataTime < st.initialTime - n * st.delta)
    (hm : m ≤ n) :
    (setCurrentVelocity (runN st m)).1.nextVelTime
        - (setCurrentVelocity (runN st m)).1.prevVelTime = signedDataDelta st
    ∧ (st.direction = .Forward →
        (setCurrentVelocity (runN st m)).1.prevVelTime
            ≤ (setCurrentVelocity (runN st m)).1.currentTime
        ∧ (setCurrentVelocity (runN st m)).1.currentTime
            ≤ (setCurrentVelocity (runN st m)).1.nextVelTime)
    ∧ (st.direction = .Backward →
        (setCurrentVelocity (runN st m)).1.nextVelTime
            ≤ (setCurrentVelocity (runN st m)).1.currentTime
        ∧ (setCurrentVelocity (runN st m)).1.currentTime
            ≤ (setCurrentVelocity (runN st m)).1.prevVelTime) := by
  obtain ⟨hA, hB, hF, hBk⟩ :=
    bracketInvAux st n h0 hd hdl hdd hgridF hgridB hendF hendB m hm
  have hct : (setCurrentVelocity (runN st m)).1.currentTime
      = (runN st m).currentTime :=
    (scv_proj (runN st m)).2.2.2.2.2.2
  refine ⟨?_, ?_, ?_⟩
  · rw [hA, hB]
    ring
  · intro hFd
    have hsdF : signedDataDelta st = st.dataDelta := by
      simp [signedDataDelta, hFd]
    obtain ⟨hlo, hhi⟩ := hF hFd
    rw [hct, hA, hB, hsdF]
    exact ⟨hlo, hhi⟩
  · intro hBd
    have hsdB : signedDataDelta st = -st.dataDelta := by
      simp [signedDataDelta, hBd]
    obtain ⟨hlo, hhi⟩ := hBk hBd
    rw [hct, hA, hB, hsdB]
    constructor
    · linarith only [hlo]
    · exact hhi

/-- A configuration on which the claim as frozen fails: Forward run, begin
data time 0, data interval 1, initial time 1/2 (not on the data-time
lattice). -/
def c3CexState : FlowState :=
  ⟨.Forward, 1, 1, 1/2, 1/2, 0, 0, 10, 0, 0⟩

/-- C3 counterexample: after the very first `SetCurrentVelocity` call of this
run, the current simulation time `1/2` lies strictly below
`previous.time = 1` — the initialization seek overshoots an initial time that
is not on the data-time lattice, so the claimed direction-aware containment
fails. -/
theorem DiscreteFlowField_bracket_cex :
    (setCurrentVelocity (runN c3CexState 0)).1.currentTime <
      (setCurrentVelocity (runN c3CexState 0)).1.prevVelTime := by
  have hseek : seekForward (1/2 : ℚ) 1 0 = 1 := by
    rw [seekForward, dif_pos (by norm_num)]
    rw [seekForward, dif_neg (by norm_num)]
    norm_num
  rw [show runN c3CexState 0 = c3CexState from rfl,
    scv_eq_init c3CexState rfl]
  dsimp only
  show c3CexState.currentTime < scvAnchor c3CexState
  have hanchor : scvAnchor c3CexState = 1 := by
    simp only [scvAnchor, c3CexState]
    exact hseek
  rw [hanchor]
  norm_num [c3CexState]

/-- Concrete well-configured Forward run for the C3 witness. -/
def c3WitState : FlowState :=
  ⟨.Forward, 1, 1, 0, 0, 0, 0, 10, 0, 0⟩

/-- C3 witness: the amended bracket invariant at step 2 of a concrete
run. -/
theorem DiscreteFlowField_bracket_spec_witness :
    (setCurrentVelocity (runN c3WitState 1)).1.nextVelTime
        - (setCurrentVelocity (runN c3WitState 1)).1.prevVelTime
        = signedDataDelta c3WitState
    ∧ (c3WitState.direction = .Forward →
        (setCurrentVelocity (runN c3WitState 1)).1.prevVelTime
            ≤ (setCurrentVelocity (runN c3WitState 1)).1.currentTime
        ∧ (setCurrentVelocity (runN c3WitState 1)).1.currentTime
            ≤ (setCurrentVelocity (runN c3WitState 1)).1.nextVelTime)
    ∧ (c3WitState.direction = .Backward →
        (setCurrentVelocity (runN c3WitState 1)).1.nextVelTime
            ≤ (setCurrentVelocity (runN c3WitState 1)).1.currentTime
        ∧ (setCurrentVelocity (runN c3WitState 1)).1.currentTime
            ≤ (setCurrentVelocity (runN c3WitState 1)).1.prevVelTime) :=
  DiscreteFlowField_bracket_spec c3WitState 2 1 rfl (by norm_num [c3WitState])
    (by norm_num [c3WitState])
    (by norm_num [c3WitState])
    (fun _ => ⟨0, by norm_num [c3WitState]⟩)
    (fun h => absurd h (by decide))
    (fun _ => by norm_num [c3WitState])
    (fun h => absurd h (by decide))
    (by norm_num)

/-- C4 (amended): at any step after the first (`current_time` differs from
`initial_time`), on a state whose buffers satisfy the bracket shape
established by every reloading branch (`previous = anchor`,
`next = anchor + signed interval`), `SetCurrentVelocity` advances the anchor
by one signed data interval and reloads both buffers exactly when the current
time has reached or passed `next.time` in the advection direction and the
advanced anchor still lies strictly before the configured end-of-data time;
otherwise it leaves the entire state unchanged and loads nothing (silently
reusing the last loaded bracket); and every snapshot time loaded by such a
call exceeds the end-of-data time by strictly less than one data interval
(the reloaded previous time stays strictly inside the range, the reloaded
next time may lie beyond it). -/
theorem scv_advance_reload_spec (st : FlowState)
    (hd : 0 < st.dataDelta)
    (hne : st.currentTime ≠ st.initialTime)
    (hprev : st.prevVelTime = st.currentDataTime)
    (hnext : st.nextVelTime = st.currentDataTime + signedDataDelta st) :
    (movedPastNext st ∧ endRoom st →
      (setCurrentVelocity st).1.prevVelTime = st.nextVelTime
      ∧ (setCurrentVelocity st).1.nextVelTime
          = st.nextVelTime + signedDataDelta st
      ∧ (setCurrentVelocity st).1.currentDataTime
          = st.currentDataTime + signedDataDelta st
      ∧ (setCurrentVelocity st).2
          = [st.nextVelTime, st.nextVelTime + signedDataDelta st])
    ∧ (¬ (movedPastNext st ∧ endRoom st) →
      (setCurrentVelocity st).1 = st ∧ (setCurrentVelocity st).2 = [])
    ∧ (st.direction = .Forward → ∀ τ ∈ (setCurrentVelocity st).2,
        τ < st.endDataTime + st.dataDelta)
    ∧ (st.direction = .Backward → ∀ τ ∈ (setCurrentVelocity st).2,
        st.endDataTime - st.dataDelta < τ) := by
  refine ⟨?_, ?_, ?_, ?_⟩
  · intro hc
    rw [scv_eq_advance st hne hc]
    refine ⟨?_, ?_, rfl, ?_⟩
    · dsimp only
      rw [hnext]
    · dsimp only
      rw [hnext]
    · dsimp only
      rw [hnext]
  · intro hc
    rw [scv_eq_noop st hne hc]
    exact ⟨rfl, rfl⟩
  · intro hF τ hτ
    have hsdF : signedDataDelta st = st.dataDelta := by
      simp [signedDataDelta, hF]
    by_cases hc : movedPastNext st ∧ endRoom st
    · rw [scv_eq_advance st hne hc] at hτ
      dsimp only at hτ
      have hend := hc.2
      simp only [endRoom, hF] at hend
      rw [hsdF] at hend hτ
      simp only [List.mem_cons, List.not_mem_nil, or_false] at hτ
      rcases hτ with rfl | rfl
      · linarith only [hend, hd]
      · linarith only [hend]
    · rw [scv_eq_noop st hne hc] at hτ
      simp at hτ
  · intro hB τ hτ
    have hsdB : signedDataDelta st = -st.dataDelta := by
      simp [signedDataDelta, hB]
    by_cases hc : movedPastNext st ∧ endRoom st
    · rw [scv_eq_advance st hne hc] at hτ
      dsimp only at hτ
      have hend := hc.2
      simp only [endRoom, hB] at hend
      rw [hsdB] at hend hτ
      simp only [List.mem_cons, List.not_mem_nil, or_false] at hτ
      rcases hτ with rfl | rfl
      · linarith only [hend, hd]
      · linarith only [hend]
    · rw [scv_eq_noop st hne hc] at hτ
      simp at hτ

/-- A run configuration whose end-of-data time `3/2` is not on the anchor
lattice: data interval 1, begin data time 0, initial time 0, Forward. -/
def c4CexState : FlowState :=
  ⟨.Forward, 1, 1, 0, 0, 0, 0, 3/2, 0, 0⟩

/-- C4 counterexample: the claim that no snapshot file is ever loaded for a
time beyond the configured end-of-data time is false — in this run the second
step advances the bracket (the advance gate `end > anchor + delta` holds
because `3/2 > 1`) and loads the snapshot at time `2 > 3/2`. -/
theorem scv_loads_beyond_end_cex :
    (2 : ℚ) ∈ runLoads c4CexState 2 ∧ c4CexState.endDataTime < 2 := by
  have hseek : seekForward (0 : ℚ) 1 0 = 0 := by
    rw [seekForward, dif_neg (by norm_num)]
  have hanchor : scvAnchor c4CexState = 0 := by
    simp only [scvAnchor, c4CexState]
    exact hseek
  have hsd : signedDataDelta c4CexState = 1 := rfl
  have h0 : runN c4CexState 0 = c4CexState := rfl
  have hscv0 := scv_eq_init c4CexState rfl
  rw [hanchor, hsd] at hscv0
  have h1 : runN c4CexState 1 = updateTime (setCurrentVelocity c4CexState).1 := rfl
  rw [hscv0] at h1
  have h1' : runN c4CexState 1 =
      ⟨.Forward, 1, 1, 0, 0 + 1, 0, 0, 3/2, 0, 0 + 1⟩ := by
    rw [h1]
    rfl
  have hne1 : (runN c4CexState 1).currentTime ≠ (runN c4CexState 1).initialTime := by
    rw [h1']
    norm_num
  have hc1 : movedPastNext (runN c4CexState 1) ∧ endRoom (runN c4CexState 1) := by
    rw [h1']
    constructor
    · show (0:ℚ) + 1 ≥ 0 + 1
      norm_num
    · show (3/2 : ℚ) > 0 + 1
      norm_num
  have hscv1 := scv_eq_advance (runN c4CexState 1) hne1 hc1
  constructor
  · show (2:ℚ) ∈ runLoads c4CexState 1 ++ (setCurrentVelocity (runN c4CexState 1)).2
    rw [hscv1]
    apply List.mem_append_right
    dsimp only
    rw [h1']
    have : ((0:ℚ) + 1 + 1) = 2 := by norm_num
    show (2:ℚ) ∈ [(0:ℚ) + 1, 0 + 1 + 1]
    rw [this]
    simp
  · norm_num [c4CexState]

/-- Concrete mid-run state for the C4 witness: the current time has reached
`next.time = 1` and the end-of-data time `3/2` still leaves room, so the call
advances and reloads. -/
def c4WitState : FlowState :=
  ⟨.Forward, 1, 1, 0, 1, 0, 0, 3/2, 0, 1⟩

/-- C4 witness: the amended reload characterization evaluated on a concrete
mid-run state. -/
theorem scv_advance_reload_spec_witness :
    (movedPastNext c4WitState ∧ endRoom c4WitState →
      (setCurrentVelocity c4WitState).1.prevVelTime = c4WitState.nextVelTime
      ∧ (setCurrentVelocity c4WitState).1.nextVelTime
          = c4WitState.nextVelTime + signedDataDelta c4WitState
      ∧ (setCurrentVelocity c4WitState).1.currentDataTime
          = c4WitState.currentDataTime + signedDataDelta c4WitState
      ∧ (setCurrentVelocity c4WitState).2
          = [c4WitState.nextVelTime,
             c4WitState.nextVelTime + signedDataDelta c4WitState])
    ∧ (¬ (movedPastNext c4WitState ∧ endRoom c4WitState) →
      (setCurrentVelocity c4WitState).1 = c4WitState
      ∧ (setCurrentVelocity c4WitState).2 = [])
    ∧ (c4WitState.direction = .Forward →
        ∀ τ ∈ (setCurrentVelocity c4WitState).2,
        τ < c4WitState.endDataTime + c4WitState.dataDelta)
    ∧ (c4WitState.direction = .Backward →
        ∀ τ ∈ (setCurrentVelocity c4WitState).2,
        c4WitState.endDataTime - c4WitState.dataDelta < τ) :=
  scv_advance_reload_spec c4WitState (by norm_num [c4WitState])
    (by norm_num [c4WitState]) rfl
    (by norm_num [c4WitState, signedDataDelta])

end LCS
